import Mathlib

set_option maxRecDepth 100000

/-!
Shallow embedding of the subtitle analysis core of `src/analyzer.py`
(subtitle-analyzer-mcp).

Modelling conventions:
* Python strings are `List Char` (the public API takes `String` and works
  on `.data`); Python ints are `Int`; Python floats are `ℚ` — every float
  arising in this program is decimal with millisecond precision, so exact
  rational arithmetic is the intended reading of the source.
* Rational arithmetic is routed through `qAdd`/`qSub`/`qMul`/`qDiv`
  (numerator/denominator computations via `mkRat`).  These are proved
  equal to the ordinary field operations of `ℚ` (`qAdd_eq` …); they exist
  only because the library's `Rat.add` etc. are `@[irreducible]`, which
  would block evaluating the model on concrete inputs inside proofs.
* The regular expressions of the source are implemented directly as
  character-list matchers with the same anchoring and backtracking
  behaviour; `\s` and `str.strip` use the ASCII whitespace set.
* `int(...)` string conversion is modelled as optional sign plus ASCII
  digits surrounded by whitespace.
* The only statement the Python code can raise in the modelled core is the
  `ZeroDivisionError` of `//` inside `get_summary_segments`; that function
  is therefore `Except`-valued, the remaining operations are total.
-/

/-! ## Exact rational arithmetic primitives -/

def qAdd (a b : ℚ) : ℚ := mkRat (a.num * b.den + b.num * a.den) (a.den * b.den)

def qNeg (a : ℚ) : ℚ := mkRat (-a.num) a.den

def qSub (a b : ℚ) : ℚ := qAdd a (qNeg b)

def qMul (a b : ℚ) : ℚ := mkRat (a.num * b.num) (a.den * b.den)

def qDiv (a b : ℚ) : ℚ :=
  if 0 ≤ b.num then mkRat (a.num * b.den) (a.den * b.num.toNat)
  else mkRat (-(a.num * b.den)) (a.den * (-b.num).toNat)

theorem qAdd_eq (a b : ℚ) : qAdd a b = a + b := by
  rw [qAdd, Rat.mkRat_eq_divInt, Rat.divInt_eq_div]
  conv_rhs => rw [← Rat.num_div_den a, ← Rat.num_div_den b]
  have ha : ((a.den : ℚ)) ≠ 0 := by exact_mod_cast a.den_pos.ne'
  have hb : ((b.den : ℚ)) ≠ 0 := by exact_mod_cast b.den_pos.ne'
  push_cast
  field_simp

theorem qNeg_eq (a : ℚ) : qNeg a = -a := by
  rw [qNeg, Rat.mkRat_eq_divInt, Rat.divInt_eq_div]
  conv_rhs => rw [← Rat.num_div_den a]
  push_cast
  ring

theorem qSub_eq (a b : ℚ) : qSub a b = a - b := by
  rw [qSub, qAdd_eq, qNeg_eq]; ring

theorem qMul_eq (a b : ℚ) : qMul a b = a * b := by
  rw [qMul, Rat.mkRat_eq_divInt, Rat.divInt_eq_div]
  conv_rhs => rw [← Rat.num_div_den a, ← Rat.num_div_den b]
  have ha : ((a.den : ℚ)) ≠ 0 := by exact_mod_cast a.den_pos.ne'
  have hb : ((b.den : ℚ)) ≠ 0 := by exact_mod_cast b.den_pos.ne'
  push_cast
  field_simp

theorem qDiv_eq (a b : ℚ) : qDiv a b = a / b := by
  rw [qDiv]
  rcases lt_trichotomy b.num 0 with hn | hn | hn
  · rw [if_neg (not_le.mpr hn), Rat.mkRat_eq_divInt, Rat.divInt_eq_div]
    conv_rhs => rw [← Rat.num_div_den a, ← Rat.num_div_den b]
    have ha : ((a.den : ℚ)) ≠ 0 := by exact_mod_cast a.den_pos.ne'
    have hb : ((b.den : ℚ)) ≠ 0 := by exact_mod_cast b.den_pos.ne'
    have hbn : ((b.num : ℚ)) ≠ 0 := by exact_mod_cast hn.ne
    have htn : ((-b.num).toNat : ℤ) = -b.num := Int.toNat_of_nonneg (by omega)
    push_cast [htn]
    field_simp
  · have hb0 : b = 0 := Rat.num_eq_zero.mp hn
    simp [hb0, hn, Rat.mkRat_eq_divInt]
  · rw [if_pos hn.le, Rat.mkRat_eq_divInt, Rat.divInt_eq_div]
    conv_rhs => rw [← Rat.num_div_den a, ← Rat.num_div_den b]
    have ha : ((a.den : ℚ)) ≠ 0 := by exact_mod_cast a.den_pos.ne'
    have hb : ((b.den : ℚ)) ≠ 0 := by exact_mod_cast b.den_pos.ne'
    have hbn : ((b.num : ℚ)) ≠ 0 := by exact_mod_cast hn.ne'
    have htn : ((b.num).toNat : ℤ) = b.num := Int.toNat_of_nonneg hn.le
    push_cast [htn]
    field_simp

/-- `Rat.floor` (evaluable) agrees with the mathematical floor. -/
theorem ratFloor_eq (q : ℚ) : q.floor = ⌊q⌋ :=
  (Rat.floor_def' q).trans Rat.floor_def.symm

/-! ## Python string primitives -/

/-- ASCII whitespace, modelling Python's `\s` and the default `str.strip`. -/
def isPySpace (c : Char) : Bool :=
  c = ' ' || c = '\t' || c = '\n' || c = '\r' || c = Char.ofNat 11 || c = Char.ofNat 12

def isPyDigit (c : Char) : Bool := '0' ≤ c && c ≤ '9'

/-- The numeric value of an ASCII digit character, `none` otherwise. -/
def readDigit (c : Char) : Option Nat :=
  if '0' ≤ c ∧ c ≤ '9' then some (c.toNat - 48) else none

def digitChar (v : Nat) : Char := Char.ofNat (48 + v)

/-- Python `str.strip()`. -/
def pyStrip (l : List Char) : List Char :=
  ((l.dropWhile isPySpace).reverse.dropWhile isPySpace).reverse

/-- Python `str.split("\n")`. -/
def splitLines (l : List Char) : List (List Char) := l.splitOn '\n'

/-- Python `" ".join(...)`. -/
def joinSpace (ls : List (List Char)) : List Char := List.intercalate [' '] ls

/-- Python `"\n".join(...)`. -/
def joinNl (ls : List (List Char)) : List Char := List.intercalate ['\n'] ls

/-- Scan to the first `>`, returning the remainder after it. -/
def scanGt : List Char → Option (List Char)
  | [] => none
  | c :: rest => if c = '>' then some rest else scanGt rest

/-- At a `<`, the regex `<[^>]+>` of `re.sub` needs at least one non-`>`
character and then the first following `>`; returns the remainder after
that `>` when it matches. -/
def findTagEnd : List Char → Option (List Char)
  | [] => none
  | c :: rest => if c = '>' then none else scanGt rest

theorem scanGt_length : ∀ {l r : List Char}, scanGt l = some r → r.length < l.length := by
  intro l
  induction l with
  | nil => intro r h; simp [scanGt] at h
  | cons c rest ih =>
    intro r h
    simp only [scanGt] at h
    by_cases hc : c = '>'
    · simp [hc] at h; simp [← h]
    · simp [hc] at h
      exact Nat.lt_succ_of_lt (ih h)

theorem findTagEnd_length {l r : List Char} (h : findTagEnd l = some r) :
    r.length < l.length := by
  cases l with
  | nil => simp [findTagEnd] at h
  | cons c rest =>
    simp only [findTagEnd] at h
    by_cases hc : c = '>'
    · simp [hc] at h
    · simp [hc] at h
      exact Nat.lt_succ_of_lt (scanGt_length h)

/-- Python `re.sub(r"<[^>]+>", "", ·)` with explicit fuel (every
iteration consumes at least one character — see `findTagEnd_length` — so
`fuel = length` always suffices and the fuel-exhaustion case is
unreachable from `stripTags`). -/
def stripTagsF : Nat → List Char → List Char
  | _, [] => []
  | 0, l => l
  | fuel + 1, c :: rest =>
    if c = '<' then
      match findTagEnd rest with
      | some r => stripTagsF fuel r
      | none => c :: stripTagsF fuel rest
    else c :: stripTagsF fuel rest

/-- Python `re.sub(r"<[^>]+>", "", ·)`. -/
def stripTags (l : List Char) : List Char := stripTagsF l.length l

/-- Greedy whitespace scan after a `\n`, modelling the backtracking of the
pattern `\n\s*\n`: succeeds iff another `\n` is reachable through
whitespace, returning the text after the last such `\n`. -/
def sepScan : List Char → Option (List Char)
  | [] => none
  | c :: rest =>
    if c = '\n' then some ((sepScan rest).getD rest)
    else if isPySpace c then sepScan rest
    else none

theorem sepScan_length : ∀ {l r : List Char}, sepScan l = some r → r.length < l.length := by
  intro l
  induction l with
  | nil => intro r h; simp [sepScan] at h
  | cons c rest ih =>
    intro r h
    simp only [sepScan] at h
    by_cases hc : c = '\n'
    · simp [hc] at h
      cases hs : sepScan rest with
      | some r' =>
        rw [hs] at h; simp at h
        subst h
        exact Nat.lt_succ_of_lt (ih hs)
      | none =>
        rw [hs] at h; simp at h
        simp [← h]
    · by_cases hw : isPySpace c
      · simp [hc, hw] at h
        exact Nat.lt_succ_of_lt (ih h)
      · simp [hc, hw] at h

/-- Python `re.split(r"\n\s*\n", ·)` with explicit fuel; `acc` is the
current block, reversed.  Every iteration consumes at least one character
(see `sepScan_length`), so `fuel = length` always suffices. -/
def reSplitBlankF : Nat → List Char → List Char → List (List Char)
  | _, acc, [] => [acc.reverse]
  | 0, acc, rest => [acc.reverse ++ rest]
  | fuel + 1, acc, c :: rest =>
    if c = '\n' then
      match sepScan rest with
      | some r => acc.reverse :: reSplitBlankF fuel [] r
      | none => reSplitBlankF fuel (c :: acc) rest
    else reSplitBlankF fuel (c :: acc) rest

/-- Python `re.split(r"\n\s*\n", ·)`. -/
def pySplitBlank (l : List Char) : List (List Char) := reSplitBlankF l.length [] l

/-- Case-insensitive literal substring search, modelling
`re.compile(re.escape(kw), re.IGNORECASE).search(text)`. -/
def strContains (hay needle : List Char) : Bool :=
  needle.isPrefixOf hay ||
    match hay with
    | [] => false
    | _ :: t => strContains t needle

/-! ## Timecode matching and conversion -/

/-- Result of the timecode regex `\d{2}:\d{2}:\d{2}[,.]\d{3}`: numeric
fields, the twelve matched characters, and the unmatched remainder. -/
structure TCMatch where
  h : Nat
  m : Nat
  s : Nat
  ms : Nat
  raw : List Char
  rest : List Char
deriving DecidableEq, Repr

/-- `re.match` of `\d{2}:\d{2}:\d{2}[,.]\d{3}` — a comma separator is
accepted only when `ac = true` (the SRT patterns use `[,\.]`, the VTT
patterns use `\.`). -/
def matchTC (ac : Bool) : List Char → Option TCMatch
  | d1 :: d2 :: k1 :: d3 :: d4 :: k2 :: d5 :: d6 :: sep :: d7 :: d8 :: d9 :: rest =>
    match readDigit d1, readDigit d2, readDigit d3, readDigit d4, readDigit d5,
          readDigit d6, readDigit d7, readDigit d8, readDigit d9 with
    | some v1, some v2, some v3, some v4, some v5, some v6, some v7, some v8, some v9 =>
      if k1 = ':' ∧ k2 = ':' ∧ (sep = '.' ∨ (ac = true ∧ sep = ',')) then
        some ⟨10 * v1 + v2, 10 * v3 + v4, 10 * v5 + v6, 100 * v7 + 10 * v8 + v9,
              [d1, d2, k1, d3, d4, k2, d5, d6, sep, d7, d8, d9], rest⟩
      else none
    | _, _, _, _, _, _, _, _, _ => none
  | _ => none

def skipWs (l : List Char) : List Char := l.dropWhile isPySpace

/-- `re.match(r"\d{2}:\d{2}:\d{2}\.\d{3}\s*-->", ·)` as a Boolean test
(used by the VTT parser to recognise timestamp lines). -/
def matchVttHeadPat (l : List Char) : Bool :=
  match matchTC false l with
  | some m =>
    match skipWs m.rest with
    | '-' :: '-' :: '>' :: _ => true
    | _ => false
  | none => false

/-- `re.match` of `(TC)\s*-->\s*(TC)` returning both captured timecodes. -/
def matchTimePair (ac : Bool) (l : List Char) : Option (TCMatch × TCMatch) :=
  match matchTC ac l with
  | some m1 =>
    match skipWs m1.rest with
    | '-' :: '-' :: '>' :: r =>
      match matchTC ac (skipWs r) with
      | some m2 => some (m1, m2)
      | none => none
    | _ => none
  | none => none

/-- `SubtitleAnalyzer._time_to_seconds`:
`hours*3600 + minutes*60 + seconds + ms/1000`, `0.0` on pattern failure. -/
def _time_to_seconds (l : List Char) : ℚ :=
  match matchTC true l with
  | some m =>
    qAdd (qAdd (qAdd (qMul (m.h : ℚ) 3600) (qMul (m.m : ℚ) 60)) (m.s : ℚ))
      (qDiv (m.ms : ℚ) 1000)
  | none => 0

/-- Python `int(...)` truncation of a float (toward zero). -/
def pyTrunc (q : ℚ) : Int := if q < 0 then -((qNeg q).floor) else q.floor

/-- Python float `%` with a positive right operand. -/
def pyMod (q n : ℚ) : ℚ := qSub q (qMul n (((qDiv q n).floor : Int) : ℚ))

def natDigits (n : Nat) : List Char := Nat.toDigits 10 n

def leftPad0 (w : Nat) (l : List Char) : List Char :=
  List.replicate (w - l.length) '0' ++ l

/-- Python `f"{n:0wd}"` (zero padding goes after the sign). -/
def pyFmt0 (w : Nat) (n : Int) : List Char :=
  if n < 0 then '-' :: leftPad0 (w - 1) (natDigits (-n).toNat)
  else leftPad0 w (natDigits n.toNat)

/-- `SubtitleAnalyzer._seconds_to_time`. -/
def _seconds_to_time (seconds : ℚ) : List Char :=
  let hours : Int := (qDiv seconds 3600).floor
  let minutes : Int := (qDiv (pyMod seconds 3600) 60).floor
  let secs : Int := pyTrunc (pyMod seconds 60)
  let ms : Int := pyTrunc (qMul (pyMod seconds 1) 1000)
  pyFmt0 2 hours ++ ':' :: (pyFmt0 2 minutes ++ ':' :: (pyFmt0 2 secs ++ '.' :: pyFmt0 3 ms))

/-- All-ASCII-digit string to `Nat` (`none` when empty or non-digit). -/
def natOfDigits (l : List Char) : Option Nat :=
  if l ≠ [] ∧ l.all isPyDigit then
    some (l.foldl (fun a c => 10 * a + (c.toNat - 48)) 0)
  else none

/-- Python `int(str)`: surrounding whitespace allowed, optional sign,
then ASCII digits.  (CPython additionally accepts single underscores
between digits and non-ASCII decimal digits; no claim depends on those.) -/
def pyIntOfChars (l : List Char) : Option Int :=
  match pyStrip l with
  | '+' :: ds => (natOfDigits ds).map Int.ofNat
  | '-' :: ds => (natOfDigits ds).map (fun n => -(n : Int))
  | ds => (natOfDigits ds).map Int.ofNat

/-! ## Parsing -/

/-- `SubtitleEntry` of `analyzer.py`. -/
structure SubtitleEntry where
  index : Int
  start_time : List Char
  end_time : List Char
  text : List Char
  start_seconds : ℚ
deriving DecidableEq, Repr

def dummyEntry : SubtitleEntry := ⟨0, [], [], [], 0⟩

/-- One step of the `for block in blocks` loop of
`SubtitleAnalyzer.parse_srt`. -/
def srtFoldBlock (entries : List SubtitleEntry) (block : List Char) :
    List SubtitleEntry :=
  let lines := splitLines (pyStrip block)
  if lines.length < 2 then entries
  else
    let p : Int × Nat :=
      match pyIntOfChars (lines.getD 0 []) with
      | some n => (n, 1)
      | none => ((entries.length : Int) + 1, 0)
    let index := p.1
    let time_line_idx := p.2
    if lines.length ≤ time_line_idx then entries
    else
      match matchTimePair true (lines.getD time_line_idx []) with
      | none => entries
      | some (m1, m2) =>
        let start_time := m1.raw.map (fun c => if c = ',' then '.' else c)
        let end_time := m2.raw.map (fun c => if c = ',' then '.' else c)
        let text := stripTags (joinSpace (lines.drop (time_line_idx + 1)))
        if pyStrip text = [] then entries
        else entries ++ [⟨index, start_time, end_time, text,
                          _time_to_seconds start_time⟩]

/-- `SubtitleAnalyzer.parse_srt`. -/
def parse_srt (content : String) : List SubtitleEntry :=
  (pySplitBlank (pyStrip content.data)).foldl srtFoldBlock []

/-- Inner `while` of `SubtitleAnalyzer.parse_vtt`: collect cleaned text
lines until a blank line or the next timestamp line; returns the
collected lines and the unconsumed remainder. -/
def vttCollect : List (List Char) → List (List Char) × List (List Char)
  | [] => ([], [])
  | l :: rest =>
    let t := pyStrip l
    if t = [] ∨ matchVttHeadPat t then ([], l :: rest)
    else
      let clean := stripTags t
      let p := vttCollect rest
      (if clean = [] then p.1 else clean :: p.1, p.2)

theorem vttCollect_length : ∀ (ls : List (List Char)),
    (vttCollect ls).2.length ≤ ls.length := by
  intro ls
  induction ls with
  | nil => simp [vttCollect]
  | cons l rest ih =>
    simp only [vttCollect]
    by_cases hb : pyStrip l = [] ∨ matchVttHeadPat (pyStrip l)
    · simp [hb]
    · simp [hb]
      exact Nat.le_succ_of_le ih

/-- Outer `while` of `SubtitleAnalyzer.parse_vtt`, with explicit fuel:
one unit per iteration of the Python `while i < len(lines)` loop; `none`
means the fuel ran out with lines still unconsumed.  Every iteration
advances past at least one line (see `vttCollect_length`), so
`fuel = length` always suffices — that is proved as the termination
claim below. -/
def vttMainF (fuel : Nat) (lines : List (List Char)) (index : Int) :
    Option (List SubtitleEntry) :=
  match fuel, lines with
  | _, [] => some []
  | 0, _ :: _ => none
  | fuel + 1, l :: rest =>
    let line := pyStrip l
    match matchTimePair false line with
    | some (m1, m2) =>
      let p := vttCollect rest
      if p.1 ≠ [] then
        (vttMainF fuel p.2 (index + 1)).map
          (fun es => ⟨index, m1.raw, m2.raw, joinSpace p.1,
                      _time_to_seconds m1.raw⟩ :: es)
      else vttMainF fuel p.2 index
    | none => vttMainF fuel rest index

/-- Outer `while` of `SubtitleAnalyzer.parse_vtt`. -/
def vttMain (lines : List (List Char)) (index : Int) : List SubtitleEntry :=
  (vttMainF lines.length lines index).getD []

/-- The line list on which the VTT main loop starts: all lines of the
content, with header lines before the first raw timestamp line skipped. -/
def vttLines (content : String) : List (List Char) :=
  (splitLines content.data).dropWhile (fun l => !matchVttHeadPat l)

/-- `SubtitleAnalyzer.parse_vtt`: skip header lines up to the first raw
line matching the timestamp pattern, then run the main loop. -/
def parse_vtt (content : String) : List SubtitleEntry :=
  vttMain (vttLines content) 1

def webvttTok : List Char := "WEBVTT".data

/-- `SubtitleAnalyzer._detect_format`. -/
def _detect_format (content : String) : String :=
  if webvttTok.isPrefixOf (pyStrip content.data) then "vtt" else "srt"

/-- `SubtitleAnalyzer.parse`. -/
def parse (content : String) : List SubtitleEntry :=
  if _detect_format content = "vtt" then parse_vtt content else parse_srt content

/-! ## Keyword search -/

def lowerChars (l : List Char) : List Char := l.map Char.toLower

/-- One keyword hit of `search_keywords`. -/
structure KwMatch where
  timestamp : List Char
  seconds : ℚ
  text : List Char
  context : List Char
deriving DecidableEq, Repr

/-- Per-keyword aggregate of `search_keywords`. -/
structure KwResult where
  keyword : List Char
  matchList : List KwMatch
  count : Nat
deriving DecidableEq, Repr

/-- Python `range(a, b)` over `Int` (empty when `b ≤ a`). -/
def pyRange (a b : Int) : List Int :=
  (List.range (b - a).toNat).map (fun (k : Nat) => a + (k : Int))

/-- The context-window index range of `search_keywords`:
`range(max(0, i - context_lines), min(len(entries), i + context_lines + 1))`. -/
def ctxWindow (entries : List SubtitleEntry) (context_lines : Int) (i : Nat) :
    List Int :=
  pyRange (max 0 ((i : Int) - context_lines))
          (min (entries.length : Int) ((i : Int) + context_lines + 1))

def markerHit : List Char := ">>>".data
def markerCtx : List Char := "   ".data
def ctxOpen : List Char := " [".data
def ctxClose : List Char := "] ".data

/-- One rendered context line `f"{marker} [{start_time}] {text}"`. -/
def ctxLine (entries : List SubtitleEntry) (i : Nat) (j : Int) : List Char :=
  let e := entries.getD j.toNat dummyEntry
  (if j = (i : Int) then markerHit else markerCtx) ++ ctxOpen ++ e.start_time ++
    ctxClose ++ e.text

/-- The rendered context block of one hit (entries are only ever read at
indices inside `ctxWindow`; the window is proved in-bounds below). -/
def mkContext (entries : List SubtitleEntry) (context_lines : Int) (i : Nat) :
    List Char :=
  joinNl ((ctxWindow entries context_lines i).map (ctxLine entries i))

/-- The `for i, entry in enumerate(entries)` hit-collection loop of
`search_keywords` for one keyword. -/
def searchHits (entries : List SubtitleEntry) (keyword : List Char)
    (context_lines : Int) : List KwMatch :=
  (List.range entries.length).filterMap (fun i =>
    let e := entries.getD i dummyEntry
    if strContains (lowerChars e.text) (lowerChars keyword) then
      some ⟨e.start_time, e.start_seconds, e.text, mkContext entries context_lines i⟩
    else none)

/-- CPython `f"{x:.1f}"` for the exact decimal values arising here
(round half to even at one decimal place). -/
def fmtFloat1 (q : ℚ) : List Char :=
  let neg := q < 0
  let a : ℚ := if q.num < 0 then qNeg q else q
  let t : ℚ := qMul a 10
  let fl : Int := t.floor
  let frac : ℚ := qSub t ((fl : Int) : ℚ)
  let r : Int :=
    if mkRat 1 2 < frac then fl + 1
    else if frac < mkRat 1 2 then fl
    else if fl % 2 = 0 then fl else fl + 1
  (if neg then ['-'] else []) ++ natDigits (r / 10).toNat ++ '.' :: natDigits (r % 10).toNat

def eqBanner : List Char := List.replicate 60 '='
def dashBanner : List Char := List.replicate 40 '-'
def reportTitle : List Char := "🔍 字幕关键词搜索结果".data
def noMatchNotice : List Char := "   未找到匹配内容".data
def sixSpaces : List Char := "      ".data
def kwHdrA : List Char := "\n📌 关键词: \"".data
def kwHdrB : List Char := "\" (找到 ".data
def kwHdrC : List Char := " 处)".data
def hitA : List Char := "\n  [".data
def hitB : List Char := "] 时间戳: ".data
def hitC : List Char := " (".data
def hitD : List Char := "秒)".data
def hitTextPre : List Char := "      匹配文本: ".data
def ctxHdr : List Char := "\n      上下文:".data
def totA : List Char := "总计: 搜索 ".data
def totB : List Char := " 个关键词，找到 ".data
def totC : List Char := " 处匹配".data

/-- The lines contributed by hit number `i` (1-based) of a keyword. -/
def renderHit (i : Nat) (m : KwMatch) : List (List Char) :=
  (hitA ++ natDigits i ++ hitB ++ m.timestamp ++ hitC ++ fmtFloat1 m.seconds ++ hitD) ::
    (hitTextPre ++ m.text) :: ctxHdr ::
    (splitLines m.context).map (fun ln => sixSpaces ++ ln)

/-- The lines contributed by one keyword section; hits are numbered from 1
(`enumerate(matches, 1)`). -/
def renderKwSection (r : KwResult) : List (List Char) :=
  (kwHdrA ++ r.keyword ++ kwHdrB ++ natDigits r.count ++ kwHdrC) :: dashBanner ::
    (if r.matchList = [] then [noMatchNotice]
     else (List.zipWith renderHit (List.range' 1 r.matchList.length) r.matchList).flatten)

/-- `SubtitleAnalyzer._format_search_results`. -/
def _format_search_results (results : List KwResult) : List Char :=
  let total_matches := results.foldl (fun a r => a + r.count) 0
  joinNl (eqBanner :: reportTitle :: eqBanner ::
    (results.flatMap renderKwSection ++
     [('\n' :: eqBanner),
      (totA ++ natDigits results.length ++ totB ++ natDigits total_matches ++ totC),
      eqBanner]))

def sentinelUnparseable : String := "无法解析字幕内容"

/-- `SubtitleAnalyzer.search_keywords`. -/
def search_keywords (content : String) (keywords : List String)
    (context_lines : Int) : String :=
  let entries := parse content
  if entries = [] then sentinelUnparseable
  else
    String.mk (_format_search_results (keywords.map (fun kw =>
      let ms := searchHits entries kw.data context_lines
      ⟨kw.data, ms, ms.length⟩)))

/-! ## Summary segmentation -/

inductive PyErr where
  | zeroDivisionError
deriving DecidableEq, Repr

/-- A segment dict of `get_summary_segments` (after its `texts` working
list has been replaced by the joined `text`). -/
structure Segment where
  start_time : List Char
  start_seconds : Int
  text : List Char
  end_time : List Char
deriving DecidableEq, Repr

/-- The open segment being accumulated. -/
structure SegCur where
  start_time : List Char
  start_seconds : Int
  texts : List (List Char)
deriving DecidableEq, Repr

/-- The `for entry in entries` loop of `get_summary_segments`, plus the
final close-out.  `lastEnd` is `entries[-1].end_time` of the full list.
`segment_duration = 0` hits the `ZeroDivisionError` of `//`. -/
def segGo (d : Int) (lastEnd : List Char) (cur : SegCur) :
    List SubtitleEntry → Except PyErr (List Segment)
  | [] =>
    .ok (if cur.texts ≠ [] then
      [⟨cur.start_time, cur.start_seconds, joinSpace cur.texts, lastEnd⟩]
    else [])
  | e :: rest =>
    if d = 0 then .error .zeroDivisionError
    else
      let segment_start := (pyTrunc e.start_seconds).fdiv d * d
      if segment_start ≠ cur.start_seconds then
        let closed := if cur.texts ≠ [] then
          [⟨cur.start_time, cur.start_seconds, joinSpace cur.texts,
            _seconds_to_time (((cur.start_seconds + d : Int)) : ℚ)⟩]
        else []
        match segGo d lastEnd ⟨_seconds_to_time ((segment_start : Int) : ℚ),
                               segment_start, [e.text]⟩ rest with
        | .ok segs => .ok (closed ++ segs)
        | .error err => .error err
      else
        segGo d lastEnd ⟨cur.start_time, cur.start_seconds, cur.texts ++ [e.text]⟩ rest

/-- `SubtitleAnalyzer.get_summary_segments`. -/
def get_summary_segments (content : String) (segment_duration : Int) :
    Except PyErr (List Segment) :=
  let entries := parse content
  match entries with
  | [] => .ok []
  | e0 :: _ =>
    segGo segment_duration ((entries.getLastD dummyEntry).end_time)
      ⟨e0.start_time, 0, []⟩ entries

/-! ## Chapter extraction -/

/-- A chapter dict of `extract_chapters`. -/
structure Chapter where
  start_time : List Char
  end_time : List Char
  first_line : List Char
deriving DecidableEq, Repr

/-- The `for i in range(1, len(entries))` loop of `extract_chapters`:
`chapter_start` is the pending chapter's opening entry, `prev` is
`entries[i-1]`. -/
def chapGo (threshold : ℚ) (chapter_start prev : SubtitleEntry) :
    List SubtitleEntry → List Chapter
  | [] => [⟨chapter_start.start_time, prev.end_time, chapter_start.text.take 100⟩]
  | e :: rest =>
    let prev_end := _time_to_seconds prev.end_time
    let gap := qSub e.start_seconds prev_end
    if threshold < gap then
      ⟨chapter_start.start_time, prev.end_time, chapter_start.text.take 100⟩ ::
        chapGo threshold e e rest
    else
      chapGo threshold chapter_start e rest

/-- `SubtitleAnalyzer.extract_chapters`. -/
def extract_chapters (content : String) (threshold : ℚ) : List Chapter :=
  match parse content with
  | e0 :: e1 :: rest => chapGo threshold e0 e0 (e1 :: rest)
  | _ => []

/-! ## Shape lemmas for timecode matching -/

theorem readDigit_ne_comma {c : Char} {v : Nat} (h : readDigit c = some v) :
    c ≠ ',' := by
  intro he
  rw [he] at h
  simp [readDigit] at h

/-- Successful digits are left unchanged by the `,` → `.` replacement. -/
theorem replaceComma_digit {c : Char} {v : Nat} (h : readDigit c = some v) :
    (if c = ',' then '.' else c) = c := by
  simp [readDigit_ne_comma h]

theorem replColon : (if ':' = ',' then '.' else ':') = ':' := by decide

theorem replDot : (if '.' = ',' then '.' else '.') = '.' := by decide

theorem replCommaChar : (if ',' = ',' then '.' else ',') = '.' := by decide

/-- Decomposition of a successful timecode match. -/
theorem matchTC_some {ac : Bool} {l : List Char} {m : TCMatch}
    (hm : matchTC ac l = some m) :
    ∃ d1 d2 d3 d4 d5 d6 sep d7 d8 d9 v1 v2 v3 v4 v5 v6 v7 v8 v9,
      readDigit d1 = some v1 ∧ readDigit d2 = some v2 ∧ readDigit d3 = some v3 ∧
      readDigit d4 = some v4 ∧ readDigit d5 = some v5 ∧ readDigit d6 = some v6 ∧
      readDigit d7 = some v7 ∧ readDigit d8 = some v8 ∧ readDigit d9 = some v9 ∧
      (sep = '.' ∨ sep = ',') ∧ (ac = false → sep = '.') ∧
      m.raw = [d1, d2, ':', d3, d4, ':', d5, d6, sep, d7, d8, d9] ∧
      m.h = 10 * v1 + v2 ∧ m.m = 10 * v3 + v4 ∧ m.s = 10 * v5 + v6 ∧
      m.ms = 100 * v7 + 10 * v8 + v9 := by
  rcases l with _ | ⟨d1, _ | ⟨d2, _ | ⟨k1, _ | ⟨d3, _ | ⟨d4, _ | ⟨k2, _ | ⟨d5, _ |
    ⟨d6, _ | ⟨sep, _ | ⟨d7, _ | ⟨d8, _ | ⟨d9, rest⟩⟩⟩⟩⟩⟩⟩⟩⟩⟩⟩⟩ <;>
    simp only [matchTC] at hm
  · exact absurd hm (by simp)
  · exact absurd hm (by simp)
  · exact absurd hm (by simp)
  · exact absurd hm (by simp)
  · exact absurd hm (by simp)
  · exact absurd hm (by simp)
  · exact absurd hm (by simp)
  · exact absurd hm (by simp)
  · exact absurd hm (by simp)
  · exact absurd hm (by simp)
  · exact absurd hm (by simp)
  · exact absurd hm (by simp)
  · split at hm
    · next v1 v2 v3 v4 v5 v6 v7 v8 v9 h1 h2 h3 h4 h5 h6 h7 h8 h9 =>
      split at hm
      · next hc =>
        obtain ⟨hk1, hk2, hsep⟩ := hc
        subst hk1; subst hk2
        cases hm
        refine ⟨d1, d2, d3, d4, d5, d6, sep, d7, d8, d9, _, _, _, _, _, _, _, _, _,
          h1, h2, h3, h4, h5, h6, h7, h8, h9, ?_, ?_, rfl, rfl, rfl, rfl, rfl⟩
        · rcases hsep with h | ⟨_, h⟩ <;> simp [h]
        · intro hac
          rcases hsep with h | ⟨h, _⟩
          · exact h
          · rw [hac] at h; cases h
      · cases hm
    · cases hm

/-! ## Well-formedness of parsed entries -/

/-- A parsed entry's `start_time` has the canonical `HH:MM:SS.mmm` form
and its `start_seconds` is the closed-form conversion
`hours*3600 + minutes*60 + seconds + ms/1000` of that string's digits. -/
def EntryWF (e : SubtitleEntry) : Prop :=
  ∃ d1 d2 d3 d4 d5 d6 d7 d8 d9 v1 v2 v3 v4 v5 v6 v7 v8 v9,
    readDigit d1 = some v1 ∧ readDigit d2 = some v2 ∧ readDigit d3 = some v3 ∧
    readDigit d4 = some v4 ∧ readDigit d5 = some v5 ∧ readDigit d6 = some v6 ∧
    readDigit d7 = some v7 ∧ readDigit d8 = some v8 ∧ readDigit d9 = some v9 ∧
    e.start_time = [d1, d2, ':', d3, d4, ':', d5, d6, '.', d7, d8, d9] ∧
    e.start_seconds = ((10 * v1 + v2 : ℕ) : ℚ) * 3600 + ((10 * v3 + v4 : ℕ) : ℚ) * 60 +
      ((10 * v5 + v6 : ℕ) : ℚ) + ((100 * v7 + 10 * v8 + v9 : ℕ) : ℚ) / 1000

theorem tts_canon {d1 d2 d3 d4 d5 d6 d7 d8 d9 : Char}
    {v1 v2 v3 v4 v5 v6 v7 v8 v9 : Nat}
    (h1 : readDigit d1 = some v1) (h2 : readDigit d2 = some v2)
    (h3 : readDigit d3 = some v3) (h4 : readDigit d4 = some v4)
    (h5 : readDigit d5 = some v5) (h6 : readDigit d6 = some v6)
    (h7 : readDigit d7 = some v7) (h8 : readDigit d8 = some v8)
    (h9 : readDigit d9 = some v9) :
    _time_to_seconds [d1, d2, ':', d3, d4, ':', d5, d6, '.', d7, d8, d9] =
      ((10 * v1 + v2 : ℕ) : ℚ) * 3600 + ((10 * v3 + v4 : ℕ) : ℚ) * 60 +
        ((10 * v5 + v6 : ℕ) : ℚ) + ((100 * v7 + 10 * v8 + v9 : ℕ) : ℚ) / 1000 := by
  have hm : matchTC true [d1, d2, ':', d3, d4, ':', d5, d6, '.', d7, d8, d9] =
      some ⟨10 * v1 + v2, 10 * v3 + v4, 10 * v5 + v6, 100 * v7 + 10 * v8 + v9,
            [d1, d2, ':', d3, d4, ':', d5, d6, '.', d7, d8, d9], []⟩ := by
    simp [matchTC, h1, h2, h3, h4, h5, h6, h7, h8, h9]
  unfold _time_to_seconds
  split
  · next m hm2 =>
    rw [hm] at hm2
    cases hm2
    rw [qAdd_eq, qAdd_eq, qAdd_eq, qMul_eq, qMul_eq, qDiv_eq]
  · next hm2 =>
    rw [hm] at hm2
    cases hm2

theorem entryWF_tts {e : SubtitleEntry} (h : EntryWF e) :
    _time_to_seconds e.start_time = e.start_seconds := by
  obtain ⟨d1, d2, d3, d4, d5, d6, d7, d8, d9, v1, v2, v3, v4, v5, v6, v7, v8, v9,
    h1, h2, h3, h4, h5, h6, h7, h8, h9, hst, hss⟩ := h
  rw [hst, tts_canon h1 h2 h3 h4 h5 h6 h7 h8 h9, hss]

theorem matchTimePair_fst {ac : Bool} {l : List Char} {p : TCMatch × TCMatch}
    (h : matchTimePair ac l = some p) : matchTC ac l = some p.1 := by
  unfold matchTimePair at h
  split at h
  · next m1 hm1 =>
    split at h
    · next r _ =>
      split at h
      · next m2 hm2 =>
        cases h
        exact hm1
      · cases h
    · cases h
  · cases h

/-- The entry built by a successful SRT block parse is well-formed. -/
theorem srtFoldBlock_wf {entries : List SubtitleEntry} {block : List Char}
    (hwf : ∀ e ∈ entries, EntryWF e) :
    ∀ e ∈ srtFoldBlock entries block, EntryWF e := by
  intro e he
  simp only [srtFoldBlock] at he
  split at he
  · exact hwf e he
  · split at he
    · exact hwf e he
    · split at he
      · exact hwf e he
      · next m1 m2 hmp =>
        split at he
        · exact hwf e he
        · rw [List.mem_append] at he
          rcases he with he | he
          · exact hwf e he
          · rw [List.mem_singleton] at he
            subst he
            obtain ⟨d1, d2, d3, d4, d5, d6, sep, d7, d8, d9,
              v1, v2, v3, v4, v5, v6, v7, v8, v9,
              h1, h2, h3, h4, h5, h6, h7, h8, h9, hsep, _, hraw, _, _, _, _⟩ :=
              matchTC_some (matchTimePair_fst hmp)
            have hst : List.map (fun c => if c = ',' then '.' else c) m1.raw =
                [d1, d2, ':', d3, d4, ':', d5, d6, '.', d7, d8, d9] := by
              rw [hraw]
              rcases hsep with hs | hs <;> subst hs <;>
                simp [replaceComma_digit h1, replaceComma_digit h2, replaceComma_digit h3,
                  replaceComma_digit h4, replaceComma_digit h5, replaceComma_digit h6,
                  replaceComma_digit h7, replaceComma_digit h8, replaceComma_digit h9]
            refine ⟨d1, d2, d3, d4, d5, d6, d7, d8, d9,
              v1, v2, v3, v4, v5, v6, v7, v8, v9,
              h1, h2, h3, h4, h5, h6, h7, h8, h9, hst, ?_⟩
            show _time_to_seconds (List.map _ m1.raw) = _
            rw [hst, tts_canon h1 h2 h3 h4 h5 h6 h7 h8 h9]

theorem foldl_srt_wf : ∀ (blocks : List (List Char)) (acc : List SubtitleEntry),
    (∀ e ∈ acc, EntryWF e) → ∀ e ∈ blocks.foldl srtFoldBlock acc, EntryWF e := by
  intro blocks
  induction blocks with
  | nil => intro acc hacc e he; exact hacc e he
  | cons b bs ih =>
    intro acc hacc e he
    exact ih (srtFoldBlock acc b) (srtFoldBlock_wf hacc) e he

theorem parse_srt_wf {content : String} : ∀ e ∈ parse_srt content, EntryWF e := by
  intro e he
  exact foldl_srt_wf _ [] (by simp) e he

theorem vttMainF_wf : ∀ (fuel : Nat) (lines : List (List Char)) (index : Int)
    (es : List SubtitleEntry), vttMainF fuel lines index = some es →
    ∀ e ∈ es, EntryWF e := by
  intro fuel
  induction fuel with
  | zero =>
    intro lines index es hes e he
    cases lines with
    | nil => simp [vttMainF] at hes; subst hes; cases he
    | cons l rest => simp [vttMainF] at hes
  | succ fuel ih =>
    intro lines index es hes e he
    cases lines with
    | nil => simp [vttMainF] at hes; subst hes; cases he
    | cons l rest =>
      simp only [vttMainF] at hes
      split at hes
      · next m1 m2 hmp =>
        split at hes
        · cases hrec : vttMainF fuel (vttCollect rest).2 (index + 1) with
          | none => rw [hrec] at hes; cases hes
          | some es' =>
            rw [hrec] at hes
            simp only [Option.map_some', Option.some.injEq] at hes
            subst hes
            rw [List.mem_cons] at he
            rcases he with he | he
            · subst he
              obtain ⟨d1, d2, d3, d4, d5, d6, sep, d7, d8, d9,
                v1, v2, v3, v4, v5, v6, v7, v8, v9,
                  h1, h2, h3, h4, h5, h6, h7, h8, h9, _, hdot, hraw, _, _, _, _⟩ :=
                  matchTC_some (matchTimePair_fst hmp)
              have hsep : sep = '.' := hdot rfl
              subst hsep
              exact ⟨d1, d2, d3, d4, d5, d6, d7, d8, d9,
                v1, v2, v3, v4, v5, v6, v7, v8, v9,
                h1, h2, h3, h4, h5, h6, h7, h8, h9, hraw, by
                  show _time_to_seconds m1.raw = _
                  rw [hraw, tts_canon h1 h2 h3 h4 h5 h6 h7 h8 h9]⟩
            · exact ih _ _ _ hrec e he
        · exact ih _ _ _ hes e he
      · exact ih _ _ _ hes e he

/-- Every entry produced by `parse` (either path) is well-formed. -/
theorem parse_wf {content : String} : ∀ e ∈ parse content, EntryWF e := by
  intro e he
  unfold parse at he
  split at he
  · unfold parse_vtt vttMain at he
    cases hv : vttMainF (vttLines content).length (vttLines content) 1 with
    | none => rw [hv] at he; cases he
    | some es => rw [hv] at he; exact vttMainF_wf _ _ _ _ hv e he
  · exact parse_srt_wf e he

theorem parse_tts {content : String} {e : SubtitleEntry} (he : e ∈ parse content) :
    _time_to_seconds e.start_time = e.start_seconds :=
  entryWF_tts (parse_wf e he)

/-! ## Termination of the VTT main loop (fuel sufficiency) -/

theorem vttMainF_isSome : ∀ (fuel : Nat) (lines : List (List Char)) (index : Int),
    lines.length ≤ fuel → ∃ es, vttMainF fuel lines index = some es := by
  intro fuel
  induction fuel with
  | zero =>
    intro lines index hlen
    have hnil : lines = [] := List.eq_nil_of_length_eq_zero (Nat.le_zero.mp hlen)
    subst hnil
    exact ⟨[], rfl⟩
  | succ fuel ih =>
    intro lines index hlen
    cases lines with
    | nil => exact ⟨[], rfl⟩
    | cons l rest =>
      have hrest : rest.length ≤ fuel := by simpa using hlen
      have hcoll : (vttCollect rest).2.length ≤ fuel :=
        le_trans (vttCollect_length rest) hrest
      simp only [vttMainF]
      split
      · next m1 m2 hmp =>
        split
        · obtain ⟨es, hes⟩ := ih (vttCollect rest).2 (index + 1) hcoll
          exact ⟨_, by rw [hes]; rfl⟩
        · exact ih (vttCollect rest).2 index hcoll
      · exact ih rest index hrest

theorem vttMainF_agree : ∀ (n : Nat) (lines : List (List Char)) (f1 f2 : Nat)
    (index : Int), lines.length ≤ n → lines.length ≤ f1 → lines.length ≤ f2 →
    vttMainF f1 lines index = vttMainF f2 lines index := by
  intro n
  induction n with
  | zero =>
    intro lines f1 f2 index h0 h1 h2
    have hnil : lines = [] := List.eq_nil_of_length_eq_zero (Nat.le_zero.mp h0)
    subst hnil
    cases f1 <;> cases f2 <;> rfl
  | succ n ih =>
    intro lines f1 f2 index h0 h1 h2
    cases lines with
    | nil => cases f1 <;> cases f2 <;> rfl
    | cons l rest =>
      cases f1 with
      | zero => simp at h1
      | succ g1 =>
        cases f2 with
        | zero => simp at h2
        | succ g2 =>
          have hr0 : rest.length ≤ n := by simpa using h0
          have hr1 : rest.length ≤ g1 := by simpa using h1
          have hr2 : rest.length ≤ g2 := by simpa using h2
          have hc0 : (vttCollect rest).2.length ≤ n :=
            le_trans (vttCollect_length rest) hr0
          have hc1 : (vttCollect rest).2.length ≤ g1 :=
            le_trans (vttCollect_length rest) hr1
          have hc2 : (vttCollect rest).2.length ≤ g2 :=
            le_trans (vttCollect_length rest) hr2
          simp only [vttMainF]
          split
          · next m1 m2 hmp =>
            split
            · rw [ih (vttCollect rest).2 g1 g2 (index + 1) hc0 hc1 hc2]
            · exact ih (vttCollect rest).2 g1 g2 index hc0 hc1 hc2
          · exact ih rest g1 g2 index hr0 hr1 hr2

/-- Any fuel of at least the number of remaining lines computes the final
parse result: the loop finishes within `lines.length` iterations. -/
theorem vttMainF_complete (fuel : Nat) (lines : List (List Char)) (index : Int)
    (hlen : lines.length ≤ fuel) :
    vttMainF fuel lines index = some (vttMain lines index) := by
  obtain ⟨es, hes⟩ := vttMainF_isSome lines.length lines index le_rfl
  have hag := vttMainF_agree lines.length lines fuel lines.length index le_rfl hlen le_rfl
  rw [hag, hes, vttMain, hes]
  rfl

/-! ## Context-window lemmas -/

theorem pyRange_mem {a b j : Int} : j ∈ pyRange a b ↔ a ≤ j ∧ j < b := by
  unfold pyRange
  constructor
  · intro hj
    obtain ⟨k, hk, rfl⟩ := List.mem_map.mp hj
    rw [List.mem_range] at hk
    omega
  · intro ⟨h1, h2⟩
    refine List.mem_map.mpr ⟨(j - a).toNat, ?_, ?_⟩
    · rw [List.mem_range]; omega
    · omega

theorem ctxWindow_bounds {entries : List SubtitleEntry} {context_lines : Int}
    {i : Nat} (hcl : 0 ≤ context_lines) (hi : i < entries.length) :
    (∀ j ∈ ctxWindow entries context_lines i, 0 ≤ j ∧ j < entries.length) ∧
    (i : Int) ∈ ctxWindow entries context_lines i := by
  constructor
  · intro j hj
    rw [ctxWindow, pyRange_mem] at hj
    omega
  · rw [ctxWindow, pyRange_mem]
    omega

theorem ctxWindow_zero {entries : List SubtitleEntry} {i : Nat}
    (hi : i < entries.length) : ctxWindow entries 0 i = [(i : Int)] := by
  rw [ctxWindow]
  have ha : max 0 ((i : Int) - 0) = (i : Int) := by omega
  have hb : min (entries.length : Int) ((i : Int) + 0 + 1) = (i : Int) + 1 := by omega
  rw [ha, hb]
  unfold pyRange
  rw [show ((i : Int) + 1 - (i : Int)) = 1 by ring,
    show ((1 : Int)).toNat = 1 from rfl,
    show List.range 1 = [0] from rfl]
  simp

theorem ctxWindow_neg {entries : List SubtitleEntry} {context_lines : Int}
    {i : Nat} (h : context_lines < 0) : ctxWindow entries context_lines i = [] := by
  rw [ctxWindow]
  unfold pyRange
  have h0 : (min (entries.length : Int) ((i : Int) + context_lines + 1) -
      max 0 ((i : Int) - context_lines)).toNat = 0 := by omega
  rw [h0]
  rfl

/-! ## Summary-segmentation lemmas -/

theorem segGo_zero : ∀ (entries : List SubtitleEntry), entries ≠ [] →
    ∀ (lastEnd : List Char) (cur : SegCur),
    segGo 0 lastEnd cur entries = .error .zeroDivisionError := by
  intro entries h lastEnd cur
  cases entries with
  | nil => exact absurd rfl h
  | cons e rest => simp [segGo]

theorem segGo_ok {d : Int} (hd : d ≠ 0) : ∀ (entries : List SubtitleEntry)
    (lastEnd : List Char) (cur : SegCur),
    ∃ segs, segGo d lastEnd cur entries = .ok segs := by
  intro entries
  induction entries with
  | nil => intro lastEnd cur; exact ⟨_, rfl⟩
  | cons e rest ih =>
    intro lastEnd cur
    simp only [segGo, if_neg hd]
    split
    · obtain ⟨segs, hs⟩ := ih lastEnd ⟨_seconds_to_time
        ((((pyTrunc e.start_seconds).fdiv d * d : Int)) : ℚ),
        (pyTrunc e.start_seconds).fdiv d * d, [e.text]⟩
      rw [hs]
      exact ⟨_, rfl⟩
    · exact ih lastEnd _

/-- `get_summary_segments` fails (with the division-by-zero error) exactly
when the duration is zero and at least one entry was parsed. -/
theorem gss_error_iff (content : String) (d : Int) :
    get_summary_segments content d = .error .zeroDivisionError ↔
      (d = 0 ∧ parse content ≠ []) := by
  unfold get_summary_segments
  cases hp : parse content with
  | nil => simp
  | cons e0 rest =>
    simp only [ne_eq, reduceCtorEq, not_false_eq_true, and_true]
    constructor
    · intro herr
      by_contra hd
      obtain ⟨segs, hs⟩ := segGo_ok hd (e0 :: rest)
        (((e0 :: rest).getLastD dummyEntry).end_time) ⟨e0.start_time, 0, []⟩
      rw [hs] at herr
      cases herr
    · intro hd
      subst hd
      exact segGo_zero (e0 :: rest) (by simp) _ _

def dummySeg : Segment := ⟨[], 0, [], []⟩

/-- Structure of a successful segmentation run: the output ends with one
final segment closed at `lastEnd`, and every earlier segment was closed
with the synthetic end time `start_seconds + duration`. -/
theorem segGo_struct : ∀ (entries : List SubtitleEntry) (d : Int)
    (lastEnd : List Char) (cur : SegCur) (segs : List Segment),
    (entries ≠ [] ∨ cur.texts ≠ []) →
    segGo d lastEnd cur entries = .ok segs →
    ∃ pre fin, segs = pre ++ [fin] ∧ fin.end_time = lastEnd ∧
      ∀ s ∈ pre, s.end_time = _seconds_to_time (((s.start_seconds + d : Int)) : ℚ) := by
  intro entries
  induction entries with
  | nil =>
    intro d lastEnd cur segs hne hok
    rcases hne with hne | hne
    · exact absurd rfl hne
    · simp only [segGo, if_pos hne] at hok
      cases hok
      exact ⟨[], _, rfl, rfl, by simp⟩
  | cons e rest ih =>
    intro d lastEnd cur segs _ hok
    simp only [segGo] at hok
    by_cases hd : d = 0
    · rw [if_pos hd] at hok; cases hok
    rw [if_neg hd] at hok
    split at hok
    · -- bucket change: close the current segment (if non-empty) and recurse
      cases hrec : segGo d lastEnd ⟨_seconds_to_time
          ((((pyTrunc e.start_seconds).fdiv d * d : Int)) : ℚ),
          (pyTrunc e.start_seconds).fdiv d * d, [e.text]⟩ rest with
      | error er => rw [hrec] at hok; cases hok
      | ok segs' =>
        rw [hrec] at hok
        cases hok
        obtain ⟨pre, fin, heq, hfin, hpre⟩ :=
          ih d lastEnd _ segs' (Or.inr (by simp)) hrec
        subst heq
        refine ⟨(if cur.texts ≠ [] then
          [⟨cur.start_time, cur.start_seconds, joinSpace cur.texts,
            _seconds_to_time (((cur.start_seconds + d : Int)) : ℚ)⟩] else []) ++ pre,
          fin, by rw [List.append_assoc], hfin, ?_⟩
        intro s hs
        rw [List.mem_append] at hs
        rcases hs with hs | hs
        · split at hs
          · rw [List.mem_singleton] at hs
            subst hs
            rfl
          · cases hs
        · exact hpre s hs
    · -- same bucket: extend the current segment
      exact ih d lastEnd _ segs (Or.inr (by simp)) hok

/-- The first segment emitted by a run whose accumulator is already
non-empty carries the accumulator's start fields. -/
theorem segGo_head : ∀ (entries : List SubtitleEntry) (d : Int)
    (lastEnd : List Char) (cur : SegCur) (segs : List Segment),
    cur.texts ≠ [] →
    segGo d lastEnd cur entries = .ok segs →
    ∃ s0 t, segs = s0 :: t ∧ s0.start_time = cur.start_time ∧
      s0.start_seconds = cur.start_seconds := by
  intro entries
  induction entries with
  | nil =>
    intro d lastEnd cur segs hne hok
    simp only [segGo, if_pos hne] at hok
    cases hok
    exact ⟨_, _, rfl, rfl, rfl⟩
  | cons e rest ih =>
    intro d lastEnd cur segs hne hok
    simp only [segGo] at hok
    by_cases hd : d = 0
    · rw [if_pos hd] at hok; cases hok
    rw [if_neg hd] at hok
    split at hok
    · cases hrec : segGo d lastEnd ⟨_seconds_to_time
          ((((pyTrunc e.start_seconds).fdiv d * d : Int)) : ℚ),
          (pyTrunc e.start_seconds).fdiv d * d, [e.text]⟩ rest with
      | error er => rw [hrec] at hok; cases hok
      | ok segs' =>
        rw [hrec] at hok
        cases hok
        exact ⟨_, _, rfl, rfl, rfl⟩
    · exact ih d lastEnd
        ⟨cur.start_time, cur.start_seconds, cur.texts ++ [e.text]⟩ segs
        (by simp) hok

/-! ## Chapter-extraction lemmas -/

/-- The gaps between consecutive parsed entries, as computed by
`extract_chapters`: current start minus previous end (in seconds). -/
def adjGaps (es : List SubtitleEntry) : List ℚ :=
  List.zipWith (fun p c => qSub c.start_seconds (_time_to_seconds p.end_time))
    es es.tail

theorem chapGo_length : ∀ (rest : List SubtitleEntry) (t : ℚ)
    (cs prev : SubtitleEntry),
    (chapGo t cs prev rest).length =
      1 + (adjGaps (prev :: rest)).countP (fun g => decide (t < g)) := by
  intro rest
  induction rest with
  | nil => intro t cs prev; rfl
  | cons e rest' ih =>
    intro t cs prev
    have hadj : adjGaps (prev :: e :: rest') =
        qSub e.start_seconds (_time_to_seconds prev.end_time) ::
          adjGaps (e :: rest') := rfl
    rw [hadj]
    simp only [chapGo]
    by_cases hgap : t < qSub e.start_seconds (_time_to_seconds prev.end_time)
    · rw [if_pos hgap]
      simp only [List.length_cons, ih, List.countP_cons]
      simp [hgap]
      omega
    · rw [if_neg hgap]
      rw [ih]
      simp [List.countP_cons, hgap]

theorem chapGo_nogap : ∀ (rest : List SubtitleEntry) (t : ℚ)
    (cs prev : SubtitleEntry),
    (∀ g ∈ adjGaps (prev :: rest), g ≤ t) →
    chapGo t cs prev rest =
      [⟨cs.start_time, ((prev :: rest).getLastD dummyEntry).end_time,
        cs.text.take 100⟩] := by
  intro rest
  induction rest with
  | nil => intro t cs prev _; rfl
  | cons e rest' ih =>
    intro t cs prev hg
    have hgap : qSub e.start_seconds (_time_to_seconds prev.end_time) ≤ t :=
      hg _ (by rw [show adjGaps (prev :: e :: rest') =
        qSub e.start_seconds (_time_to_seconds prev.end_time) ::
          adjGaps (e :: rest') from rfl]; exact List.mem_cons_self _ _)
    simp only [chapGo, if_neg (not_lt.mpr hgap)]
    rw [ih t cs e (fun g hmem => hg g (by
      rw [show adjGaps (prev :: e :: rest') =
        qSub e.start_seconds (_time_to_seconds prev.end_time) ::
          adjGaps (e :: rest') from rfl]
      exact List.mem_cons_of_mem _ hmem))]
    simp [List.getLastD_cons]

/-- Every chapter's start time and (100-character-truncated) first line
come from some entry of the walked list. -/
theorem chapGo_openers : ∀ (rest : List SubtitleEntry) (t : ℚ)
    (cs prev : SubtitleEntry) (S : List SubtitleEntry),
    cs ∈ S → (∀ x ∈ rest, x ∈ S) →
    ∀ ch ∈ chapGo t cs prev rest, ∃ e ∈ S,
      ch.start_time = e.start_time ∧ ch.first_line = e.text.take 100 := by
  intro rest
  induction rest with
  | nil =>
    intro t cs prev S hcs _ ch hch
    rw [show chapGo t cs prev [] =
      [⟨cs.start_time, prev.end_time, cs.text.take 100⟩] from rfl,
      List.mem_singleton] at hch
    subst hch
    exact ⟨cs, hcs, rfl, rfl⟩
  | cons e rest' ih =>
    intro t cs prev S hcs hsub ch hch
    simp only [chapGo] at hch
    split at hch
    · rw [List.mem_cons] at hch
      rcases hch with hch | hch
      · subst hch
        exact ⟨cs, hcs, rfl, rfl⟩
      · exact ih t e e S (hsub e (List.mem_cons_self _ _))
          (fun x hx => hsub x (List.mem_cons_of_mem _ hx)) ch hch
    · exact ih t cs e S hcs
        (fun x hx => hsub x (List.mem_cons_of_mem _ hx)) ch hch

/-! ## Index lemmas for the SRT parser -/

def idxList (l : List SubtitleEntry) : List Int := l.map (fun e => e.index)

def rangeIdx (n : Nat) : List Int :=
  (List.range n).map (fun (k : Nat) => (k : Int) + 1)

theorem rangeIdx_succ (n : Nat) :
    rangeIdx (n + 1) = rangeIdx n ++ [(n : Int) + 1] := by
  simp [rangeIdx, List.range_succ]

/-- A block whose first line does not parse as an int either contributes
nothing or appends one entry carrying the running-counter index. -/
theorem srtFoldBlock_noIdx (block : List Char) (acc : List SubtitleEntry)
    (hb : pyIntOfChars ((splitLines (pyStrip block)).getD 0 []) = none) :
    srtFoldBlock acc block = acc ∨
    ∃ e, srtFoldBlock acc block = acc ++ [e] ∧
      e.index = (acc.length : Int) + 1 := by
  simp only [srtFoldBlock, hb]
  split
  · exact Or.inl rfl
  · split
    · exact Or.inl rfl
    · split
      · exact Or.inl rfl
      · split
        · exact Or.inl rfl
        · exact Or.inr ⟨_, rfl, rfl⟩

theorem foldl_noIdx : ∀ (blocks : List (List Char)) (acc : List SubtitleEntry),
    (∀ b ∈ blocks, pyIntOfChars ((splitLines (pyStrip b)).getD 0 []) = none) →
    idxList acc = rangeIdx acc.length →
    idxList (blocks.foldl srtFoldBlock acc) =
      rangeIdx (blocks.foldl srtFoldBlock acc).length := by
  intro blocks
  induction blocks with
  | nil => intro acc _ hacc; exact hacc
  | cons b bs ih =>
    intro acc hb hacc
    have hstep := srtFoldBlock_noIdx b acc (hb b (List.mem_cons_self _ _))
    rcases hstep with hstep | ⟨e, hstep, hidx⟩
    · simp only [List.foldl_cons, hstep]
      exact ih acc (fun x hx => hb x (List.mem_cons_of_mem _ hx)) hacc
    · simp only [List.foldl_cons, hstep]
      refine ih (acc ++ [e]) (fun x hx => hb x (List.mem_cons_of_mem _ hx)) ?_
      rw [idxList, List.map_append, List.length_append]
      show idxList acc ++ [e.index] = rangeIdx (acc.length + 1)
      rw [hacc, hidx, rangeIdx_succ]

theorem chain'_rangeIdx (n : Nat) : List.Chain' (· < ·) (rangeIdx n) := by
  have hp : List.Pairwise (· < ·) (List.range n) := List.pairwise_lt_range n
  exact (hp.map (fun (k : Nat) => (k : Int) + 1)
    (fun a b h => by show (a : Int) + 1 < (b : Int) + 1; omega)).chain'

/-! ## Sentinel lemmas for keyword search -/

theorem joinNl_cons (a : List Char) (as : List (List Char)) :
    ∃ t, joinNl (a :: as) = a ++ t := by
  cases as with
  | nil => exact ⟨_, rfl⟩
  | cons b bs => exact ⟨_, rfl⟩

theorem format_head (results : List KwResult) :
    ∃ t, _format_search_results results = '=' :: t := by
  obtain ⟨t, ht⟩ := joinNl_cons eqBanner
    (reportTitle :: eqBanner :: (results.flatMap renderKwSection ++
      [('\n' :: eqBanner),
       (totA ++ natDigits results.length ++ totB ++
        natDigits (results.foldl (fun a r => a + r.count) 0) ++ totC),
       eqBanner]))
  refine ⟨List.replicate 59 '=' ++ t, ?_⟩
  simp only [_format_search_results]
  rw [ht, show eqBanner = '=' :: List.replicate 59 '=' from rfl]
  rfl

theorem pyTrunc_fdiv_zero {q : ℚ} {d : Int} (h0 : 0 < q) (hd : q < (d : ℚ)) :
    (pyTrunc q).fdiv d * d = 0 := by
  have hq0 : ¬ q < 0 := not_lt.mpr h0.le
  have ht : pyTrunc q = ⌊q⌋ := by rw [pyTrunc, if_neg hq0, ratFloor_eq]
  have h1 : 0 ≤ ⌊q⌋ := Int.floor_nonneg.mpr h0.le
  have h2 : ⌊q⌋ < d := Int.floor_lt.mpr hd
  have hdpos : 0 ≤ d := le_trans h1 h2.le
  rw [ht, Int.fdiv_eq_ediv _ hdpos, Int.ediv_eq_zero_of_lt h1 h2, zero_mul]

theorem joinNl_single (a : List Char) : joinNl [a] = a :=
  (rfl : joinNl [a] = a ++ []).trans (List.append_nil a)

deriving instance DecidableEq for Except

/-! ## Concrete test inputs -/

def srtHello : String := "1\n00:00:01,000 --> 00:00:02,000\nHello"

def srtPair : String :=
  "1\n00:00:01,000 --> 00:00:02,000\nHello\n\n2\n00:00:03,000 --> 00:00:04,000\nWorld"

def srtThree : String :=
  "1\n00:00:00,000 --> 00:00:10,000\nAAA\n\n2\n00:01:40,000 --> 00:01:50,000\nBBB\n\n3\n00:05:50,000 --> 00:06:00,000\nCCC"

def longText : List Char := List.replicate 110 'a'

def srtGap : String := String.mk ("1\n00:00:00,000 --> 00:00:10,000\n".data ++
  longText ++
  "\n\n2\n00:00:40,000 --> 00:00:50,000\nBBB\n\n3\n00:01:30,000 --> 00:01:40,000\nCCC".data)

def srtIdx53 : String :=
  "5\n00:00:01,000 --> 00:00:02,000\nAAA\n\n3\n00:00:03,000 --> 00:00:04,000\nBBB"

def srtNoIdx : String :=
  "00:00:01,000 --> 00:00:02,000\nAAA\n\n00:00:03,000 --> 00:00:04,000\nBBB"

def vttSample : String :=
  "WEBVTT\n\n00:00:01.000 --> 00:00:02.000\n<b>Hi</b> there\n"

/-! ## Claim theorems -/

theorem mk_format_ne_sentinel (results : List KwResult) :
    String.mk (_format_search_results results) ≠ sentinelUnparseable := by
  intro heq
  obtain ⟨t, ht⟩ := format_head results
  have hd : _format_search_results results = sentinelUnparseable.data :=
    congrArg String.data heq
  rw [ht] at hd
  have hh : ('=' :: t).head? = (sentinelUnparseable.data).head? := by rw [hd]
  rw [show (sentinelUnparseable.data).head? = some '无' from rfl] at hh
  simp at hh

/-- C1 (amended): `get_summary_segments` fails — with a division-by-zero
error, not an `InvalidArgument` kind — exactly when `segment_duration = 0`
and parsing yields at least one entry; a negative `context_lines` is
accepted by `search_keywords` without error, its context windows simply
being empty; no other input of a public operation raises. -/
theorem claim_C1 :
    (∀ (content : String) (d : Int),
      get_summary_segments content d = .error .zeroDivisionError ↔
        (d = 0 ∧ parse content ≠ [])) ∧
    (∀ (entries : List SubtitleEntry) (context_lines : Int) (i : Nat),
      context_lines < 0 →
      ctxWindow entries context_lines i = [] ∧
      mkContext entries context_lines i = []) := by
  refine ⟨gss_error_iff, ?_⟩
  intro entries cl i h
  refine ⟨ctxWindow_neg h, ?_⟩
  rw [mkContext, ctxWindow_neg h]
  rfl

theorem claim_C1_witness :
    ctxWindow [] (-1) 0 = [] ∧ mkContext [] (-1) 0 = [] :=
  claim_C1.2 [] (-1) 0 (by decide)

/-- C1 counterexample: on a well-formed one-entry input,
`search_keywords` with `context_lines = -1` returns an ordinary report
(its first character is the `=` of the banner — no error, no sentinel);
`get_summary_segments` with duration `0` raises `ZeroDivisionError`, not
an `InvalidArgument` kind; and a negative duration raises nothing. -/
theorem claim_C1_counterexample :
    (search_keywords srtHello ["Hello"] (-1)).data.head? = some '=' ∧
    get_summary_segments srtHello 0 = .error .zeroDivisionError ∧
    (get_summary_segments srtHello (-300)).isOk = true := by
  refine ⟨by decide, by decide, by decide⟩

/-- C2 (amended): when parsing yields at least **two** entries and no gap
between consecutive entries exceeds the threshold, `extract_chapters`
returns exactly one chapter spanning the first entry's start time to the
last entry's end time. -/
theorem claim_C2 : ∀ (content : String) (t : ℚ) (e0 e1 : SubtitleEntry)
    (rest : List SubtitleEntry),
    parse content = e0 :: e1 :: rest →
    (∀ g ∈ adjGaps (parse content), g ≤ t) →
    extract_chapters content t =
      [⟨e0.start_time, ((parse content).getLastD dummyEntry).end_time,
        e0.text.take 100⟩] := by
  intro content t e0 e1 rest hp hg
  rw [hp] at hg
  have h := chapGo_nogap (e1 :: rest) t e0 e0 hg
  unfold extract_chapters
  rw [hp]
  exact h

theorem claim_C2_witness :
    extract_chapters srtPair 30 =
      [⟨"00:00:01.000".data, "00:00:04.000".data, "Hello".data⟩] :=
  claim_C2 srtPair 30
    ⟨1, "00:00:01.000".data, "00:00:02.000".data, "Hello".data, 1⟩
    ⟨2, "00:00:03.000".data, "00:00:04.000".data, "World".data, 3⟩
    [] (by decide) (by decide)

/-- C2 counterexample: an input parsing to exactly one entry (so no gap at
all exceeds the threshold) yields **no** chapter — not one — because
`extract_chapters` returns `[]` for fewer than two entries. -/
theorem claim_C2_counterexample :
    (parse srtHello).length = 1 ∧ extract_chapters srtHello 30 = [] := by
  refine ⟨by decide, by decide⟩

/-- C4: every entry produced by `parse` (through either the SRT or the
VTT path) has a `HH:MM:SS.mmm`-shaped `start_time`, and its
`start_seconds` equals `hours*3600 + minutes*60 + seconds + ms/1000`
computed from that string's digits. -/
theorem claim_C4 : ∀ (content : String) (e : SubtitleEntry),
    e ∈ parse content → EntryWF e :=
  fun _ e he => parse_wf e he

theorem claim_C4_witness :
    EntryWF ⟨1, "00:00:01.000".data, "00:00:02.000".data, "Hello".data, 1⟩ :=
  claim_C4 srtHello _ (by decide)

/-- C5: `search_keywords` returns the literal sentinel `"无法解析字幕内容"`
iff parsing the content yields zero entries. -/
theorem claim_C5 : ∀ (content : String) (keywords : List String)
    (context_lines : Int),
    search_keywords content keywords context_lines = sentinelUnparseable ↔
      parse content = [] := by
  intro content keywords cl
  by_cases hp : parse content = []
  · constructor
    · intro _; exact hp
    · intro _; simp [search_keywords, hp]
  · constructor
    · intro heq
      exfalso
      have hne : search_keywords content keywords cl =
          String.mk (_format_search_results (keywords.map (fun kw =>
            let ms := searchHits (parse content) kw.data cl
            ⟨kw.data, ms, ms.length⟩))) := by
        simp [search_keywords, hp]
      rw [hne] at heq
      exact mk_format_ne_sentinel _ heq
    · intro h; exact absurd h hp

/-- C6: with `context_lines ≥ 0`, the context window of a hit at position
`i` stays inside the entry list, always contains `i` (rendered with the
distinct `>>>` marker by `ctxLine`), and with `context_lines = 0` it is
exactly the matched entry. -/
theorem claim_C6 : ∀ (entries : List SubtitleEntry) (context_lines : Int)
    (i : Nat), 0 ≤ context_lines → i < entries.length →
    (∀ j ∈ ctxWindow entries context_lines i, 0 ≤ j ∧ j < entries.length) ∧
    (i : Int) ∈ ctxWindow entries context_lines i ∧
    (context_lines = 0 → ctxWindow entries context_lines i = [(i : Int)] ∧
      mkContext entries context_lines i = ctxLine entries i (i : Int)) := by
  intro entries cl i hcl hi
  obtain ⟨hb, hm⟩ := ctxWindow_bounds hcl hi
  refine ⟨hb, hm, ?_⟩
  intro h0
  subst h0
  refine ⟨ctxWindow_zero hi, ?_⟩
  rw [mkContext, ctxWindow_zero hi]
  exact joinNl_single _

theorem claim_C6_witness :
    (∀ j ∈ ctxWindow [dummyEntry] 0 0, 0 ≤ j ∧ j < ([dummyEntry] : List SubtitleEntry).length) ∧
    ((0 : Nat) : Int) ∈ ctxWindow [dummyEntry] 0 0 ∧
    ((0 : Int) = 0 → ctxWindow [dummyEntry] 0 0 = [((0 : Nat) : Int)] ∧
      mkContext [dummyEntry] 0 0 = ctxLine [dummyEntry] 0 ((0 : Nat) : Int)) :=
  claim_C6 [dummyEntry] 0 0 (by decide) (by decide)

/-- C8 (amended): when no block's first line parses as an integer (so
every index comes from the running counter), the indices of `parse_srt`'s
output are strictly increasing; explicit indices, by contrast, are copied
verbatim and need not be monotonic (see the counterexample). -/
theorem claim_C8 : ∀ (content : String),
    (∀ b ∈ pySplitBlank (pyStrip content.data),
      pyIntOfChars ((splitLines (pyStrip b)).getD 0 []) = none) →
    List.Chain' (· < ·) (idxList (parse_srt content)) := by
  intro content hb
  have h := foldl_noIdx (pySplitBlank (pyStrip content.data)) [] hb rfl
  rw [show idxList (parse_srt content) =
    idxList ((pySplitBlank (pyStrip content.data)).foldl srtFoldBlock []) from rfl, h]
  exact chain'_rangeIdx _

theorem claim_C8_witness :
    List.Chain' (· < ·) (idxList (parse_srt srtNoIdx)) :=
  claim_C8 srtNoIdx (by decide)

/-- C8 counterexample: two well-formed blocks with explicit indices `5`
and `3` parse to entries whose index sequence `[5, 3]` decreases. -/
theorem claim_C8_counterexample :
    idxList (parse_srt srtIdx53) = [5, 3] ∧
    ¬ List.Chain' (· < ·) (idxList (parse_srt srtIdx53)) := by
  have h : idxList (parse_srt srtIdx53) = [5, 3] := by decide
  refine ⟨h, ?_⟩
  rw [h]
  intro hch
  rw [List.chain'_cons] at hch
  exact absurd hch.1 (by decide)

/-- C10: the VTT parser's outer loop (with its nested text-collection
loop) always makes progress: a fuel of one unit per input line is enough
for the fuelled mirror `vttMainF` to finish and compute exactly
`parse_vtt`'s result.  (All other operations of the model are structurally
recursive, hence total by construction.) -/
theorem claim_C10 : ∀ (content : String) (fuel : Nat),
    (vttLines content).length ≤ fuel →
    vttMainF fuel (vttLines content) 1 = some (parse_vtt content) := by
  intro content fuel hf
  exact vttMainF_complete fuel (vttLines content) 1 hf

theorem claim_C10_witness :
    vttMainF (vttLines vttSample).length (vttLines vttSample) 1 =
      some (parse_vtt vttSample) :=
  claim_C10 vttSample (vttLines vttSample).length le_rfl

/-- C3: in `get_summary_segments`, every interior segment's end time is
the synthetic `start_seconds + duration` timecode, while the final
segment's end time is the last parsed entry's actual end time; in
particular, duration 300 on entries at 0s/100s/350s yields exactly two
segments, the first ending at `00:05:00.000`, the second at the last
entry's end time. -/
theorem claim_C3 :
    (∀ (content : String) (d : Int) (segs : List Segment),
      get_summary_segments content d = .ok segs → segs ≠ [] →
      (∀ k, k + 1 < segs.length →
        (segs.getD k dummySeg).end_time =
          _seconds_to_time ((((segs.getD k dummySeg).start_seconds + d : Int)) : ℚ)) ∧
      (segs.getLastD dummySeg).end_time =
        ((parse content).getLastD dummyEntry).end_time) ∧
    get_summary_segments srtThree 300 = .ok
      [⟨"00:00:00.000".data, 0, "AAA BBB".data, "00:05:00.000".data⟩,
       ⟨"00:05:00.000".data, 300, "CCC".data, "00:06:00.000".data⟩] := by
  constructor
  · intro content d segs hok hne
    revert hok
    simp only [get_summary_segments]
    cases hp : parse content with
    | nil =>
      intro hok
      cases hok
      exact absurd rfl hne
    | cons e0 rest =>
      intro hok
      obtain ⟨pre, fin, heq, hfin, hpre⟩ :=
        segGo_struct (e0 :: rest) d _ _ segs (Or.inl (by simp)) hok
      subst heq
      constructor
      · intro k hk
        have hklt : k < pre.length := by
          rw [List.length_append] at hk
          simp at hk
          omega
        have hgd : (pre ++ [fin]).getD k dummySeg = pre.getD k dummySeg := by
          rw [List.getD_eq_getElem?_getD, List.getD_eq_getElem?_getD,
            List.getElem?_append, if_pos hklt]
        have hmem : pre.getD k dummySeg ∈ pre := by
          rw [List.getD_eq_getElem?_getD, List.getElem?_eq_getElem hklt]
          exact List.getElem_mem _
        rw [hgd]
        exact hpre _ hmem
      · rw [List.getLastD_concat, hfin]
  · decide

theorem claim_C3_witness :
    (∀ k, k + 1 < ([⟨"00:00:00.000".data, 0, "AAA BBB".data, "00:05:00.000".data⟩,
       ⟨"00:05:00.000".data, 300, "CCC".data, "00:06:00.000".data⟩] :
        List Segment).length →
      (([⟨"00:00:00.000".data, 0, "AAA BBB".data, "00:05:00.000".data⟩,
       ⟨"00:05:00.000".data, 300, "CCC".data, "00:06:00.000".data⟩] :
        List Segment).getD k dummySeg).end_time =
        _seconds_to_time ((((([⟨"00:00:00.000".data, 0, "AAA BBB".data,
          "00:05:00.000".data⟩, ⟨"00:05:00.000".data, 300, "CCC".data,
          "00:06:00.000".data⟩] : List Segment).getD k dummySeg).start_seconds +
            300 : Int)) : ℚ)) ∧
    (([⟨"00:00:00.000".data, 0, "AAA BBB".data, "00:05:00.000".data⟩,
       ⟨"00:05:00.000".data, 300, "CCC".data, "00:06:00.000".data⟩] :
        List Segment).getLastD dummySeg).end_time =
      ((parse srtThree).getLastD dummyEntry).end_time :=
  claim_C3.1 srtThree 300 _ (by decide) (by decide)

/-- C7: `extract_chapters` closes a chapter exactly at gaps strictly
greater than the threshold (the chapter count is one more than the number
of strict-gap positions), every chapter's start time and first line come
from an opening entry with the first line truncated to 100 characters;
concretely, an input with a 30s gap (not split, equality) and a 40s gap
(split) under threshold 30 yields exactly the two expected chapters, the
first one's `first_line` being its 110-character opening text cut to 100. -/
theorem claim_C7 :
    (∀ (content : String) (t : ℚ), 2 ≤ (parse content).length →
      (extract_chapters content t).length =
        1 + (adjGaps (parse content)).countP (fun g => decide (t < g))) ∧
    (∀ (content : String) (t : ℚ), ∀ ch ∈ extract_chapters content t,
      ∃ e ∈ parse content, ch.start_time = e.start_time ∧
        ch.first_line = e.text.take 100) ∧
    extract_chapters srtGap 30 =
      [⟨"00:00:00.000".data, "00:00:50.000".data, List.replicate 100 'a'⟩,
       ⟨"00:01:30.000".data, "00:01:40.000".data, "CCC".data⟩] := by
  refine ⟨?_, ?_, by decide⟩
  · intro content t hlen
    unfold extract_chapters
    cases hp : parse content with
    | nil => rw [hp] at hlen; simp at hlen
    | cons e0 rest =>
      cases rest with
      | nil => rw [hp] at hlen; simp at hlen
      | cons e1 rest' => exact chapGo_length (e1 :: rest') t e0 e0
  · intro content t ch hch
    revert hch
    unfold extract_chapters
    cases hp : parse content with
    | nil => intro hch; cases hch
    | cons e0 rest =>
      cases rest with
      | nil => intro hch; cases hch
      | cons e1 rest' =>
        intro hch
        exact chapGo_openers (e1 :: rest') t e0 e0 (e0 :: e1 :: rest')
          (List.mem_cons_self _ _) (fun x hx => List.mem_cons_of_mem _ hx) ch hch

theorem claim_C7_witness :
    (extract_chapters srtGap 30).length =
      1 + (adjGaps (parse srtGap)).countP (fun g => decide ((30 : ℚ) < g)) :=
  claim_C7.1 srtGap 30 (by decide)

/-- C9: when the first parsed entry starts strictly between 0 and the
segment duration, the first segment keeps that entry's `start_time`
string but its `start_seconds` field is 0, so the first segment's
`start_seconds` does not match its own `start_time` converted to
seconds. -/
theorem claim_C9 : ∀ (content : String) (d : Int) (e0 : SubtitleEntry)
    (rest : List SubtitleEntry),
    parse content = e0 :: rest →
    0 < e0.start_seconds → e0.start_seconds < (d : ℚ) →
    ∃ s0 stail, get_summary_segments content d = .ok (s0 :: stail) ∧
      s0.start_time = e0.start_time ∧ s0.start_seconds = 0 ∧
      _time_to_seconds s0.start_time ≠ ((s0.start_seconds : Int) : ℚ) := by
  intro content d e0 rest hp h0 hdlt
  have hd0 : d ≠ 0 := by
    intro h
    subst h
    rw [Int.cast_zero] at hdlt
    exact absurd (h0.trans hdlt) (lt_irrefl 0)
  have hbucket : (pyTrunc e0.start_seconds).fdiv d * d = 0 :=
    pyTrunc_fdiv_zero h0 hdlt
  have hgss : get_summary_segments content d =
      segGo d (((e0 :: rest).getLastD dummyEntry).end_time)
        ⟨e0.start_time, 0, []⟩ (e0 :: rest) := by
    simp only [get_summary_segments, hp]
  have hstep : segGo d (((e0 :: rest).getLastD dummyEntry).end_time)
      ⟨e0.start_time, 0, []⟩ (e0 :: rest) =
      segGo d (((e0 :: rest).getLastD dummyEntry).end_time)
        ⟨e0.start_time, 0, [e0.text]⟩ rest := by
    simp only [segGo, if_neg hd0]
    rw [if_neg (show ¬((pyTrunc e0.start_seconds).fdiv d * d ≠ 0) from by
      simp [hbucket])]
    rfl
  obtain ⟨segs, hok⟩ := segGo_ok hd0 rest
    (((e0 :: rest).getLastD dummyEntry).end_time) ⟨e0.start_time, 0, [e0.text]⟩
  obtain ⟨s0, t, hseq, hst, hss⟩ := segGo_head rest d _ _ segs (by simp) hok
  subst hseq
  refine ⟨s0, t, ?_, hst, hss, ?_⟩
  · rw [hgss, hstep, hok]
  · rw [hst]
    show _time_to_seconds e0.start_time ≠ _
    rw [parse_tts (show e0 ∈ parse content by
      rw [hp]; exact List.mem_cons_self _ _)]
    rw [hss]
    rw [show (((0 : Int) : ℚ)) = 0 from by simp]
    exact h0.ne'

theorem claim_C9_witness :
    ∃ s0 stail, get_summary_segments srtPair 300 = .ok (s0 :: stail) ∧
      s0.start_time = "00:00:01.000".data ∧ s0.start_seconds = 0 ∧
      _time_to_seconds s0.start_time ≠ ((s0.start_seconds : Int) : ℚ) :=
  claim_C9 srtPair 300
    ⟨1, "00:00:01.000".data, "00:00:02.000".data, "Hello".data, 1⟩
    [⟨2, "00:00:03.000".data, "00:00:04.000".data, "World".data, 3⟩]
    (by decide) (by decide) (by decide)
